import Mathlib

/-!
Shallow embedding of the golem reverse proxy's load-balancing core
(`internal/balancer` and `internal/server` of github.com/novaru/golem),
together with theorems settling the specification claims.

Conventions of the embedding:
* Go `int` / `int64` / `time.Duration` values are modelled as `Int`;
  Go `uint64` values are modelled as `Nat` reduced modulo `2^64` where the
  source can overflow.  The conversion `int(u)` of a `uint64` to a signed
  64-bit integer is modelled explicitly by `toInt64`.
* Go's truncated integer remainder (`%` on `int`) is `Int.tmod`.
* `float64` arithmetic of the weighted balancer is idealised over `ℝ`.
* A Go function that can panic (out-of-range slice index) returns a
  distinguished `fault` outcome.
-/

/-- Mirrors `balancer.Backend` (backend.go): URL, health flag, in-flight
connection count and the configured weight. -/
structure Backend where
  url : String
  healthy : Bool
  connections : Int
  weight : Int
deriving DecidableEq, Repr

/-- Mirrors `Backend.IsHealthy`. -/
def Backend.IsHealthy (b : Backend) : Bool := b.healthy

/-- Mirrors `Backend.AddConnections`: unconditional increment. -/
def Backend.AddConnections (c : Int) : Int := c + 1

/-- Mirrors `Backend.RemoveConnections`: saturating decrement (no-op at 0
or below). -/
def Backend.RemoveConnections (c : Int) : Int := if c > 0 then c - 1 else c

/-- Conversion of a `uint64` value (a `Nat` below `2^64`) to Go's `int`
(64-bit two's complement reinterpretation). -/
def toInt64 (u : Nat) : Int := if u < 2 ^ 63 then (u : Int) else (u : Int) - 2 ^ 64

/-- The index computed by `RoundRobinBalancer.NextBackend` for a given
pre-increment counter value and list length `n`:
`int(atomic.AddUint64(&r.index, 1)) % n` with Go's truncated `%`. -/
def rrIndex (counter : Nat) (n : Nat) : Int :=
  Int.tmod (toInt64 ((counter + 1) % 2 ^ 64)) n

/-- Outcome of a round-robin selection: a backend, one of the two error
returns of `roundrobin.go`, or a runtime fault (out-of-range slice index). -/
inductive RRResult where
  | ok (b : Backend)
  | errNoBackends
  | errNoneHealthy
  | fault
deriving DecidableEq, Repr

/-- The probe loop of `RoundRobinBalancer.NextBackend` (`for range n`):
advance the shared counter, compute the index, inspect the backend.  The
second component is the counter value after the call.  A negative computed
index faults (Go panics on a negative slice index). -/
def rrProbe (backends : List Backend) : Nat → Nat → RRResult × Nat
  | 0, counter => (.errNoneHealthy, counter)
  | fuel + 1, counter =>
    let c := (counter + 1) % 2 ^ 64
    let idx := rrIndex counter backends.length
    if h : 0 ≤ idx ∧ idx < (backends.length : Int) then
      let next := backends.get ⟨idx.toNat, by omega⟩
      if next.IsHealthy then (.ok next, c) else rrProbe backends fuel c
    else (.fault, c)

/-- Mirrors `RoundRobinBalancer.NextBackend` (roundrobin.go, lines 22-35).
The balancer state is its `uint64` counter; the call returns the outcome
together with the updated counter. -/
def rrNextBackend (backends : List Backend) (counter : Nat) : RRResult × Nat :=
  if backends.length = 0 then (.errNoBackends, counter)
  else rrProbe backends backends.length counter

/-- Sequential iteration of `rrNextBackend`, collecting the results of the
successive calls; models back-to-back calls on the shared balancer. -/
def rrRun (backends : List Backend) (counter : Nat) : Nat → List RRResult × Nat
  | 0 => ([], counter)
  | k + 1 =>
    let step := rrNextBackend backends counter
    let rest := rrRun backends step.2 k
    (step.1 :: rest.1, rest.2)

-- Basic sanity lemmas about the 64-bit reinterpretation.

theorem toInt64_of_lt {u : Nat} (h : u < 2 ^ 63) : toInt64 u = u := by
  rw [toInt64, if_pos h]

theorem tmod_coe_coe (a b : Nat) : Int.tmod (a : Int) (b : Int) = ((a % b : Nat) : Int) := rfl

/-- For counters that stay in the signed-non-negative range the computed
index is the plain `Nat` remainder. -/
theorem rrIndex_of_small {counter n : Nat} (h : counter + 1 < 2 ^ 63) :
    rrIndex counter n = (((counter + 1) % n : Nat) : Int) := by
  have h64 : counter + 1 < 2 ^ 64 := by omega
  rw [rrIndex, Nat.mod_eq_of_lt h64, toInt64_of_lt h]
  exact tmod_coe_coe (counter + 1) n

theorem rrIndex_bounds {counter n : Nat} (hn : 0 < n) (h : counter + 1 < 2 ^ 63) :
    0 ≤ rrIndex counter n ∧ rrIndex counter n < (n : Int) := by
  rw [rrIndex_of_small h]
  have := Nat.mod_lt (counter + 1) hn
  omega

/-- Hitting lemma for the cyclic probe sequence: any residue `j < n` is
reached within `n` consecutive steps starting anywhere. -/
theorem cycle_hit (c j n : Nat) (hn : 0 < n) (hj : j < n) :
    ∃ i, i < n ∧ (c + i) % n = j := by
  haveI : NeZero n := ⟨by omega⟩
  refine ⟨((j : ZMod n) - (c : ZMod n)).val, ZMod.val_lt _, ?_⟩
  have hcast : ((c + ((j : ZMod n) - (c : ZMod n)).val : Nat) : ZMod n) = (j : ZMod n) := by
    push_cast
    rw [ZMod.natCast_rightInverse ((j : ZMod n) - (c : ZMod n))]
    ring
  have := congrArg ZMod.val hcast
  rwa [ZMod.val_natCast, ZMod.val_natCast, Nat.mod_eq_of_lt hj] at this

/-- One probe step in the safe counter region, healthy case: the backend at
index `(counter+1) % n` is returned and the counter advances by one. -/
theorem rrProbe_step_healthy {backends : List Backend} {fuel counter : Nat}
    (hn : 0 < backends.length) (h : counter + 1 < 2 ^ 63)
    (hh : (backends.get ⟨(counter + 1) % backends.length, Nat.mod_lt _ hn⟩).healthy = true) :
    rrProbe backends (fuel + 1) counter =
      (.ok (backends.get ⟨(counter + 1) % backends.length, Nat.mod_lt _ hn⟩), counter + 1) := by
  have h64 : counter + 1 < 2 ^ 64 := by omega
  have hb := rrIndex_bounds (n := backends.length) hn h
  have hidx : (rrIndex counter backends.length).toNat = (counter + 1) % backends.length := by
    rw [rrIndex_of_small h]; exact Int.toNat_natCast _
  simp only [rrProbe]
  rw [dif_pos hb]
  simp only [Backend.IsHealthy, hidx, Nat.mod_eq_of_lt h64, hh, if_true]

/-- One probe step in the safe counter region, unhealthy case: the probe
skips the backend and retries with the advanced counter. -/
theorem rrProbe_step_unhealthy {backends : List Backend} {fuel counter : Nat}
    (hn : 0 < backends.length) (h : counter + 1 < 2 ^ 63)
    (hh : (backends.get ⟨(counter + 1) % backends.length, Nat.mod_lt _ hn⟩).healthy = false) :
    rrProbe backends (fuel + 1) counter = rrProbe backends fuel (counter + 1) := by
  have h64 : counter + 1 < 2 ^ 64 := by omega
  have hb := rrIndex_bounds (n := backends.length) hn h
  have hidx : (rrIndex counter backends.length).toNat = (counter + 1) % backends.length := by
    rw [rrIndex_of_small h]; exact Int.toNat_natCast _
  simp only [rrProbe]
  rw [dif_pos hb]
  simp only [Backend.IsHealthy, hidx, Nat.mod_eq_of_lt h64, hh]
  simp

/-- Soundness of the probe loop in the safe counter region: it yields
either the none-healthy error or a healthy member of the list. -/
theorem rrProbe_sound (backends : List Backend) (hn : 0 < backends.length) :
    ∀ fuel counter, counter + fuel < 2 ^ 63 →
      (rrProbe backends fuel counter).1 = .errNoneHealthy ∨
        ∃ b, (rrProbe backends fuel counter).1 = .ok b ∧ b ∈ backends ∧ b.healthy = true := by
  intro fuel
  induction fuel with
  | zero => intro counter _; left; rfl
  | succ fuel ih =>
    intro counter hc
    have h1 : counter + 1 < 2 ^ 63 := by omega
    cases hh : (backends.get ⟨(counter + 1) % backends.length, Nat.mod_lt _ hn⟩).healthy with
    | true =>
      right
      refine ⟨_, ?_, List.get_mem _ _ _, hh⟩
      rw [rrProbe_step_healthy hn h1 hh]
    | false =>
      rw [rrProbe_step_unhealthy hn h1 hh]
      exact ih (counter + 1) (by omega)

/-- Completeness of the probe loop: if some position reachable within the
fuel budget holds a healthy backend, the loop returns a healthy backend. -/
theorem rrProbe_finds (backends : List Backend) (hn : 0 < backends.length) :
    ∀ fuel counter, counter + fuel < 2 ^ 63 →
      (∃ i, i < fuel ∧
        (backends.get ⟨(counter + 1 + i) % backends.length, Nat.mod_lt _ hn⟩).healthy = true) →
      ∃ b, (rrProbe backends fuel counter).1 = .ok b ∧ b ∈ backends ∧ b.healthy = true := by
  intro fuel
  induction fuel with
  | zero => intro counter _ ⟨i, hi, _⟩; omega
  | succ fuel ih =>
    intro counter hc hwit
    have h1 : counter + 1 < 2 ^ 63 := by omega
    cases hh : (backends.get ⟨(counter + 1) % backends.length, Nat.mod_lt _ hn⟩).healthy with
    | true =>
      refine ⟨_, ?_, List.get_mem _ _ _, hh⟩
      rw [rrProbe_step_healthy hn h1 hh]
    | false =>
      rw [rrProbe_step_unhealthy hn h1 hh]
      obtain ⟨i, hi, hha⟩ := hwit
      match i, hi with
      | 0, _ =>
        rw [Nat.add_zero] at hha
        rw [hh] at hha
        exact absurd hha (by simp)
      | i' + 1, hi =>
        refine ih (counter + 1) (by omega) ⟨i', by omega, ?_⟩
        have heq : counter + 1 + (i' + 1) = counter + 1 + 1 + i' := by omega
        rw [heq] at hha
        exact hha

/-- Full characterisation of `rrNextBackend` outcomes while the shared
counter stays in the signed-non-negative region. -/
theorem rrNextBackend_classify (backends : List Backend) (counter : Nat)
    (h : counter + backends.length < 2 ^ 63) :
    (backends.length = 0 → (rrNextBackend backends counter).1 = .errNoBackends) ∧
    (0 < backends.length → (∀ b ∈ backends, b.healthy = false) →
      (rrNextBackend backends counter).1 = .errNoneHealthy) ∧
    ((∃ b ∈ backends, b.healthy = true) →
      ∃ b, (rrNextBackend backends counter).1 = .ok b ∧ b ∈ backends ∧ b.healthy = true) := by
  refine ⟨fun h0 => by simp [rrNextBackend, h0], ?_, ?_⟩
  · intro hn hall
    rw [rrNextBackend, if_neg (by omega)]
    rcases rrProbe_sound backends hn backends.length counter h with hr | ⟨b, _, hb, hhb⟩
    · exact hr
    · exact absurd hhb (by rw [hall b hb]; simp)
  · intro ⟨b0, hb0, hh0⟩
    have hn : 0 < backends.length := List.length_pos_of_mem hb0
    rw [rrNextBackend, if_neg (by omega)]
    obtain ⟨⟨j, hj⟩, hget⟩ := List.mem_iff_get.mp hb0
    obtain ⟨i, hi, hhit⟩ := cycle_hit (counter + 1) j backends.length hn hj
    refine rrProbe_finds backends hn backends.length counter h ⟨i, hi, ?_⟩
    have : (⟨(counter + 1 + i) % backends.length, Nat.mod_lt _ hn⟩ : Fin backends.length) =
        ⟨j, hj⟩ := Fin.ext hhit
    rw [this, hget]
    exact hh0

/-- With every backend healthy, a call in the safe region returns the
backend at index `(counter+1) mod n` and advances the counter by one. -/
theorem rrNextBackend_all_healthy (backends : List Backend) (counter : Nat)
    (hn : 0 < backends.length) (h : counter + 1 < 2 ^ 63)
    (hall : ∀ b ∈ backends, b.healthy = true) :
    rrNextBackend backends counter =
      (.ok (backends.get ⟨(counter + 1) % backends.length, Nat.mod_lt _ hn⟩), counter + 1) := by
  rw [rrNextBackend, if_neg (by omega)]
  obtain ⟨fuel, hfuel⟩ : ∃ fuel, backends.length = fuel + 1 :=
    ⟨backends.length - 1, by omega⟩
  have hstep := @rrProbe_step_healthy backends fuel counter hn h (hall _ (List.get_mem _ _ _))
  rw [← hfuel] at hstep
  exact hstep

/-- Go's `math.MaxInt` on a 64-bit platform, the initial value of the
`minConnections` sentinel in `LeastConnBalancer.NextBackend`. -/
def goMaxInt : Int := 2 ^ 63 - 1

/-- Outcome of a least-connections selection (leastconn.go). -/
inductive LCResult where
  | ok (b : Backend)
  | errNoBackends
  | errNoneHealthy
deriving DecidableEq, Repr

/-- The scan loop of `LeastConnBalancer.NextBackend`: walk the list, skip
unhealthy records, keep the first record strictly below the running
minimum; `sel`/`minC` are the `selected`/`minConnections` variables. -/
def leastConnScan : List Backend → Option Backend → Int → Option Backend
  | [], sel, _ => sel
  | b :: rest, sel, minC =>
    if b.healthy = false then leastConnScan rest sel minC
    else if b.connections < minC then leastConnScan rest (some b) b.connections
    else leastConnScan rest sel minC

/-- Mirrors `LeastConnBalancer.NextBackend` (leastconn.go, lines 20-52):
empty-list error, scan with the `math.MaxInt` sentinel, none-healthy error
when nothing was selected. -/
def lcNextBackend (backends : List Backend) : LCResult :=
  if backends.length = 0 then .errNoBackends
  else
    match leastConnScan backends none goMaxInt with
    | none => .errNoneHealthy
    | some b => .ok b

/-- Functional spec of the scan below a bound: earliest healthy record
strictly below `bound`, refined against further elements. -/
def minHealthyLt (bound : Int) : List Backend → Option Backend
  | [] => none
  | b :: rest =>
    if b.healthy = true ∧ b.connections < bound then
      match minHealthyLt b.connections rest with
      | some m => some m
      | none => some b
    else minHealthyLt bound rest

/-- The imperative scan equals the functional spec, with the accumulator
as fallback. -/
theorem leastConnScan_eq_spec (l : List Backend) :
    ∀ sel minC, leastConnScan l sel minC =
      match minHealthyLt minC l with
      | some m => some m
      | none => sel := by
  induction l with
  | nil => intro sel minC; rfl
  | cons b rest ih =>
    intro sel minC
    by_cases hb : b.healthy = true
    · by_cases hlt : b.connections < minC
      · rw [leastConnScan, if_neg (by simp [hb]), if_pos hlt, ih]
        rw [minHealthyLt, if_pos ⟨hb, hlt⟩]
        cases minHealthyLt b.connections rest <;> rfl
      · rw [leastConnScan, if_neg (by simp [hb]), if_neg hlt, ih]
        rw [minHealthyLt, if_neg (by tauto)]
    · rw [leastConnScan, if_pos (by simpa using hb), ih]
      rw [minHealthyLt, if_neg (by tauto)]

/-- If the spec scan finds nothing, no healthy record is below the bound. -/
theorem minHealthyLt_none {bound : Int} {l : List Backend}
    (h : minHealthyLt bound l = none) :
    ∀ b ∈ l, b.healthy = true → ¬(b.connections < bound) := by
  induction l generalizing bound with
  | nil => intro b hb; simp at hb
  | cons x rest ih =>
    intro b hb hhb
    rw [minHealthyLt] at h
    by_cases hx : x.healthy = true ∧ x.connections < bound
    · rw [if_pos hx] at h
      cases hm : minHealthyLt x.connections rest <;> rw [hm] at h <;> simp at h
    · rw [if_neg hx] at h
      rcases List.mem_cons.mp hb with rfl | hb'
      · intro hlt; exact hx ⟨hhb, hlt⟩
      · exact ih h b hb' hhb

/-- Full characterisation of a successful spec scan: the result is a list
member, healthy, strictly below the bound, minimal among healthy records
below the bound, and strictly smaller than every healthy record below the
bound that precedes it in the list. -/
theorem minHealthyLt_some {bound : Int} {l : List Backend} {m : Backend}
    (h : minHealthyLt bound l = some m) :
    (∃ i, ∃ hi : i < l.length, l.get ⟨i, hi⟩ = m ∧
      (∀ b ∈ l.take i, b.healthy = true → b.connections < bound →
        m.connections < b.connections)) ∧
    m.healthy = true ∧ m.connections < bound ∧
    (∀ b ∈ l, b.healthy = true → b.connections < bound →
      m.connections ≤ b.connections) := by
  induction l generalizing bound with
  | nil => simp [minHealthyLt] at h
  | cons x rest ih =>
    rw [minHealthyLt] at h
    by_cases hx : x.healthy = true ∧ x.connections < bound
    · rw [if_pos hx] at h
      cases hm : minHealthyLt x.connections rest with
      | some m' =>
        rw [hm] at h
        cases h
        obtain ⟨⟨i, hi, hget, htie⟩, hmh, hmlt, hmin⟩ := ih hm
        refine ⟨⟨i + 1, by simpa using hi, hget, ?_⟩, hmh, lt_trans hmlt hx.2, ?_⟩
        · intro b hb hbh hblt
          rcases List.mem_cons.mp (by simpa using hb) with rfl | hb'
          · exact hmlt
          · by_cases hbx : b.connections < x.connections
            · exact htie b hb' hbh hbx
            · omega
        · intro b hb hbh hblt
          rcases List.mem_cons.mp hb with rfl | hb'
          · omega
          · by_cases hbx : b.connections < x.connections
            · exact hmin b hb' hbh hbx
            · omega
      | none =>
        rw [hm] at h
        cases h
        refine ⟨⟨0, by simp, rfl, by simp⟩, hx.1, hx.2, ?_⟩
        intro b hb hbh hblt
        rcases List.mem_cons.mp hb with rfl | hb'
        · exact le_refl _
        · have := minHealthyLt_none hm b hb' hbh
          omega
    · rw [if_neg hx] at h
      obtain ⟨⟨i, hi, hget, htie⟩, hmh, hmlt, hmin⟩ := ih h
      refine ⟨⟨i + 1, by simpa using hi, hget, ?_⟩, hmh, hmlt, ?_⟩
      · intro b hb hbh hblt
        rcases List.mem_cons.mp (by simpa using hb) with rfl | hb'
        · exact absurd ⟨hbh, hblt⟩ hx
        · exact htie b hb' hbh hblt
      · intro b hb hbh hblt
        rcases List.mem_cons.mp hb with rfl | hb'
        · exact absurd ⟨hbh, hblt⟩ hx
        · exact hmin b hb' hbh hblt

/-- Mirrors `responseTimeTracker` (weightedrt.go): cumulative duration in
nanoseconds, sample count, and timestamp of the last update. -/
structure responseTimeTracker where
  totalTime : Int
  requestCount : Nat
  lastUpdate : Int
deriving DecidableEq, Repr

/-- The 24-hour half-life of `calculateDecayFactor`, in nanoseconds. -/
def goHalfLife : Int := 86400000000000

/-- Mirrors `calculateDecayFactor` (weightedrt.go, lines 102-107):
`math.Exp(-float64(timeSinceUpdate) / float64(halfLife) * math.Ln2)`,
with `timeSinceUpdate = now - lastUpdate`. -/
noncomputable def calculateDecayFactor (lastUpdate now : Int) : ℝ :=
  Real.exp (-((now - lastUpdate : Int) : ℝ) / ((goHalfLife : Int) : ℝ) * Real.log 2)

/-- Mirrors `calculateWeight` (weightedrt.go, lines 79-99).  Go integer
divisions (`Duration` division and `Milliseconds()`) are truncated, hence
`Int.tdiv`; the `float64` arithmetic is idealised over `ℝ`. -/
noncomputable def calculateWeight (trk : responseTimeTracker) (now : Int) : ℝ :=
  if trk.requestCount = 0 then 10
  else
    let avgResponseTime : Int := Int.tdiv trk.totalTime (trk.requestCount : Int)
    let avgMs : ℝ := ((Int.tdiv avgResponseTime 1000000 : Int) : ℝ)
    let decayFactor := calculateDecayFactor trk.lastUpdate now
    max (decayFactor * (1000 / (avgMs + 1))) 0.1

/-- Weight function written from the specification text: `10.0` for a cold
backend, else `max(decay x 1000 / (avg_ms + 1), 0.1)` with
`decay = exp(-(now - last_update) / half_life x ln 2)`, `half_life = 24h`,
`avg_ms` the truncated millisecond average. -/
noncomputable def specWeight (trk : responseTimeTracker) (now : Int) : ℝ :=
  if trk.requestCount = 0 then 10
  else
    let avgMs : ℝ :=
      ((Int.tdiv (Int.tdiv trk.totalTime (trk.requestCount : Int)) 1000000 : Int) : ℝ)
    let decay : ℝ :=
      Real.exp (-(((now - trk.lastUpdate : Int) : ℝ) / ((86400000000000 : Int) : ℝ)) * Real.log 2)
    max (decay * 1000 / (avgMs + 1)) 0.1

/-- Outcome of a weighted response-time selection (weightedrt.go). -/
inductive WRTResult where
  | ok (b : Backend)
  | errNoBackends
  | errNoneHealthy
deriving DecidableEq, Repr

/-- The collection loop of `WeightedResponseTimeBalancer.NextBackend`:
healthy backends paired with their computed weights.  The tracker map,
keyed by backend identity in Go, is modelled as a function from the
backend's position in the list. -/
noncomputable def collectHealthy (trk : Nat → responseTimeTracker) (now : Int) :
    List Backend → Nat → List (Backend × ℝ)
  | [], _ => []
  | b :: rest, i =>
    if b.IsHealthy then (b, calculateWeight (trk i) now) :: collectHealthy trk now rest (i + 1)
    else collectHealthy trk now rest (i + 1)

open Classical in
/-- The cumulative scan of `selectByWeight`: return the first backend whose
cumulative weight reaches the random draw. -/
noncomputable def selectLoop (random : ℝ) : List (Backend × ℝ) → ℝ → Option Backend
  | [], _ => none
  | (b, w) :: rest, cumulative =>
    if random ≤ cumulative + w then some b else selectLoop random rest (cumulative + w)

open Classical in
/-- Mirrors `selectByWeight` (weightedrt.go, lines 110-133): zero-total
fallback to the first entry, cumulative scan, last-element fallback.
`random01` stands for the `rng.Float64()` draw in `[0,1)`. -/
noncomputable def selectByWeight (first : Backend × ℝ) (rest : List (Backend × ℝ))
    (random01 : ℝ) : Backend :=
  let pairs := first :: rest
  let totalWeight := (pairs.map Prod.snd).sum
  if totalWeight = 0 then first.1
  else
    match selectLoop (random01 * totalWeight) pairs 0 with
    | some b => b
    | none => (pairs.getLast (List.cons_ne_nil _ _)).1

/-- Mirrors `WeightedResponseTimeBalancer.NextBackend` (weightedrt.go,
lines 50-76): empty-list error, healthy collection, none-healthy error,
weighted random selection. -/
noncomputable def wrtNextBackend (backends : List Backend) (trk : Nat → responseTimeTracker)
    (now : Int) (random01 : ℝ) : WRTResult :=
  if backends.length = 0 then .errNoBackends
  else
    match collectHealthy trk now backends 0 with
    | [] => .errNoneHealthy
    | p :: rest => .ok (selectByWeight p rest random01)

/-- The healthy collection is empty exactly when no backend is healthy. -/
theorem collectHealthy_eq_nil (trk : Nat → responseTimeTracker) (now : Int) :
    ∀ (l : List Backend) (i : Nat),
      collectHealthy trk now l i = [] ↔ ∀ b ∈ l, b.healthy = false := by
  intro l
  induction l with
  | nil => intro i; simp [collectHealthy]
  | cons b rest ih =>
    intro i
    rw [collectHealthy]
    cases hb : b.IsHealthy with
    | true =>
      simp only [if_true]
      constructor
      · intro h; exact absurd h (by simp)
      · intro h
        have := h b (List.mem_cons_self _ _)
        rw [Backend.IsHealthy] at hb
        rw [this] at hb
        exact absurd hb (by simp)
    | false =>
      simp only [Bool.false_eq_true, if_false]
      rw [ih (i + 1)]
      constructor
      · intro h c hc
        rcases List.mem_cons.mp hc with rfl | hc'
        · rw [Backend.IsHealthy] at hb; exact hb
        · exact h c hc'
      · intro h c hc; exact h c (List.mem_cons_of_mem _ hc)

/-- Every pair produced by the collection loop is a healthy list member. -/
theorem collectHealthy_mem (trk : Nat → responseTimeTracker) (now : Int) :
    ∀ (l : List Backend) (i : Nat) (p : Backend × ℝ),
      p ∈ collectHealthy trk now l i → p.1 ∈ l ∧ p.1.healthy = true := by
  intro l
  induction l with
  | nil => intro i p hp; simp [collectHealthy] at hp
  | cons b rest ih =>
    intro i p hp
    rw [collectHealthy] at hp
    cases hb : b.IsHealthy with
    | true =>
      rw [hb] at hp
      simp only [if_true] at hp
      rcases List.mem_cons.mp hp with rfl | hp'
      · rw [Backend.IsHealthy] at hb
        exact ⟨List.mem_cons_self _ _, hb⟩
      · obtain ⟨h1, h2⟩ := ih (i + 1) p hp'
        exact ⟨List.mem_cons_of_mem _ h1, h2⟩
    | false =>
      rw [hb] at hp
      simp only [Bool.false_eq_true, if_false] at hp
      obtain ⟨h1, h2⟩ := ih (i + 1) p hp
      exact ⟨List.mem_cons_of_mem _ h1, h2⟩

/-- The cumulative scan only ever returns a backend from the pair list. -/
theorem selectLoop_mem (random : ℝ) :
    ∀ (pairs : List (Backend × ℝ)) (c : ℝ) (b : Backend),
      selectLoop random pairs c = some b → b ∈ pairs.map Prod.fst := by
  intro pairs
  induction pairs with
  | nil => intro c b h; simp [selectLoop] at h
  | cons p rest ih =>
    intro c b h
    obtain ⟨bp, w⟩ := p
    rw [selectLoop] at h
    by_cases hr : random ≤ c + w
    · rw [if_pos hr] at h
      cases h
      simp
    · rw [if_neg hr] at h
      simp only [List.map_cons]
      exact List.mem_cons_of_mem _ (ih (c + w) b h)

/-- The weighted random selection always yields one of its input pairs. -/
theorem selectByWeight_mem (first : Backend × ℝ) (rest : List (Backend × ℝ)) (random01 : ℝ) :
    selectByWeight first rest random01 ∈ (first :: rest).map Prod.fst := by
  rw [selectByWeight]
  by_cases h0 : ((first :: rest).map Prod.snd).sum = 0
  · rw [if_pos h0]; simp
  · rw [if_neg h0]
    cases hl : selectLoop (random01 * ((first :: rest).map Prod.snd).sum) (first :: rest) 0 with
    | some b => exact selectLoop_mem _ _ _ _ hl
    | none =>
      exact List.mem_map_of_mem Prod.fst (List.getLast_mem (List.cons_ne_nil _ _))

/-- Full characterisation of `wrtNextBackend` outcomes. -/
theorem wrtNextBackend_classify (backends : List Backend) (trk : Nat → responseTimeTracker)
    (now : Int) (random01 : ℝ) :
    (backends.length = 0 → wrtNextBackend backends trk now random01 = .errNoBackends) ∧
    (0 < backends.length → (∀ b ∈ backends, b.healthy = false) →
      wrtNextBackend backends trk now random01 = .errNoneHealthy) ∧
    ((∃ b ∈ backends, b.healthy = true) →
      ∃ b, wrtNextBackend backends trk now random01 = .ok b ∧ b ∈ backends ∧
        b.healthy = true) := by
  refine ⟨fun h0 => by simp [wrtNextBackend, h0], ?_, ?_⟩
  · intro hn hall
    rw [wrtNextBackend, if_neg (by omega)]
    rw [(collectHealthy_eq_nil trk now backends 0).mpr hall]
  · intro ⟨b0, hb0, hh0⟩
    have hn : 0 < backends.length := List.length_pos_of_mem hb0
    rw [wrtNextBackend, if_neg (by omega)]
    cases hc : collectHealthy trk now backends 0 with
    | nil =>
      have := (collectHealthy_eq_nil trk now backends 0).mp hc b0 hb0
      rw [hh0] at this
      exact absurd this (by simp)
    | cons p rest =>
      refine ⟨selectByWeight p rest random01, rfl, ?_⟩
      have hmem := selectByWeight_mem p rest random01
      obtain ⟨q, hq, hqe⟩ := List.mem_map.mp hmem
      have := collectHealthy_mem trk now backends 0 q (by rw [hc]; exact hq)
      rw [hqe] at this
      exact this

/-- A freshly initialised tracker, as built in
`NewWeightedResponseTimeBalancer` and `ResetStats`:
`&responseTimeTracker{lastUpdate: time.Now()}` — zero totals, current
timestamp. -/
def newTracker (now : Int) : responseTimeTracker :=
  { totalTime := 0, requestCount := 0, lastUpdate := now }

/-- Per-tracker effect of `RecordResponseTime` (weightedrt.go, lines
143-156): add the duration, bump the count, stamp the time. -/
def goRecordResponseTime (t : responseTimeTracker) (d now : Int) : responseTimeTracker :=
  { totalTime := t.totalTime + d, requestCount := t.requestCount + 1, lastUpdate := now }

/-- The mutations a single backend's tracker can undergo after
construction: a recorded sample or a stats reset. -/
inductive TrackerEvent where
  | record (d : Int) (now : Int)
  | reset (now : Int)
deriving DecidableEq, Repr

/-- Apply one tracker mutation. -/
def trackerStep (t : responseTimeTracker) : TrackerEvent → responseTimeTracker
  | .record d now => goRecordResponseTime t d now
  | .reset now => newTracker now

/-- Run a sequence of tracker mutations from a starting state; together
with `newTracker` this enumerates every reachable tracker state. -/
def trackerRun (t0 : responseTimeTracker) (es : List TrackerEvent) : responseTimeTracker :=
  es.foldl trackerStep t0

/-- The timestamp carried by a tracker event. -/
def eventTime : TrackerEvent → Int
  | .record _ now => now
  | .reset now => now

/-- Whether an event's recorded duration is positive (resets pass). -/
def eventPosB : TrackerEvent → Bool
  | .record d _ => d > 0
  | .reset _ => true

/-- The count-zero-iff-total-zero invariant (strengthened with
non-negativity of the total) is preserved by runs whose recorded
durations are all positive. -/
theorem trackerRun_inv (es : List TrackerEvent) :
    ∀ t0 : responseTimeTracker, (∀ e ∈ es, eventPosB e = true) →
      ((t0.requestCount = 0 ↔ t0.totalTime = 0) ∧ 0 ≤ t0.totalTime) →
      (((trackerRun t0 es).requestCount = 0 ↔ (trackerRun t0 es).totalTime = 0) ∧
        0 ≤ (trackerRun t0 es).totalTime) := by
  induction es with
  | nil => intro t0 _ h0; exact h0
  | cons e rest ih =>
    intro t0 hpos h0
    rw [trackerRun, List.foldl_cons]
    refine ih (trackerStep t0 e) (fun e' he' => hpos e' (List.mem_cons_of_mem _ he')) ?_
    cases e with
    | record d now =>
      have hd : 0 < d := by
        have := hpos _ (List.mem_cons_self _ _)
        rw [eventPosB] at this
        exact of_decide_eq_true this
      rw [trackerStep, goRecordResponseTime]
      constructor
      · simp only
        constructor
        · omega
        · intro h
          exact absurd h (by omega)
      · simp only
        omega
    | reset now =>
      rw [trackerStep, newTracker]
      exact ⟨by simp, by simp⟩

/-- The state reached by a run stamps `lastUpdate` with the time of the
last applied event (or keeps the initial stamp). -/
theorem trackerRun_le_lastUpdate (es : List TrackerEvent) :
    ∀ t0 : responseTimeTracker,
      List.Chain (· ≤ ·) t0.lastUpdate (es.map eventTime) →
      t0.lastUpdate ≤ (trackerRun t0 es).lastUpdate := by
  induction es with
  | nil => intro t0 _; exact le_refl _
  | cons e rest ih =>
    intro t0 hchain
    rw [List.map_cons, List.chain_cons] at hchain
    rw [trackerRun, List.foldl_cons]
    have hstep : (trackerStep t0 e).lastUpdate = eventTime e := by
      cases e <;> rfl
    have := ih (trackerStep t0 e) (by rw [hstep]; exact hchain.2)
    rw [hstep] at this
    exact le_trans hchain.1 this

/-- `lastUpdate` is non-decreasing along any run whose event timestamps
form a non-decreasing chain starting at the initial stamp. -/
theorem trackerRun_lastUpdate_mono (es1 es2 : List TrackerEvent) :
    ∀ t0 : responseTimeTracker,
      List.Chain (· ≤ ·) t0.lastUpdate ((es1 ++ es2).map eventTime) →
      (trackerRun t0 es1).lastUpdate ≤ (trackerRun t0 (es1 ++ es2)).lastUpdate := by
  induction es1 with
  | nil =>
    intro t0 hchain
    exact trackerRun_le_lastUpdate es2 t0 hchain
  | cons e rest ih =>
    intro t0 hchain
    rw [List.cons_append, List.map_cons, List.chain_cons] at hchain
    rw [trackerRun, List.foldl_cons, trackerRun, List.cons_append, List.foldl_cons]
    have hstep : (trackerStep t0 e).lastUpdate = eventTime e := by
      cases e <;> rfl
    have := ih (trackerStep t0 e) (by rw [hstep]; exact hchain.2)
    exact this

/-- The origin's reply as observed by `ServeHTTP` once `client.Do`
succeeds: status, the `Content-Type` header value, the body (as the lines
the streaming scanner would produce), and the I/O failures the copy loops
can encounter (`writeErrAt k`: the k-th `Fprintln` to the client fails;
`scannerErr`: `scanner.Err()` is non-nil after the loop; `copyErr`:
`io.Copy` returns an error on the standard path). -/
structure OriginResponse where
  status : Nat
  contentType : String
  bodyLines : List String
  writeErrAt : Option Nat
  scannerErr : Bool
  copyErr : Bool
deriving DecidableEq, Repr

/-- The per-request environment of `ServeHTTP` (proxy.go, lines 31-130):
the selection outcome (`nil` check on line 33), whether `url.Parse`,
`http.NewRequest` succeed, whether the `http.ResponseWriter` supports
flushing, and the `client.Do` outcome (`none` = transport error). -/
structure ProxyEnv where
  selected : Option Backend
  parseOk : Bool
  newRequestOk : Bool
  supportsFlushing : Bool
  originResponse : Option OriginResponse
deriving DecidableEq, Repr

/-- Observable effects of one `ServeHTTP` call on the selected backend and
the client: how often `AddConnections` / `RemoveConnections` actually ran
on the selected backend, the selected backend's final connection count,
the HTTP status written, whether `SetHealth(false)` was applied, whether
`RecordResponseTime` was invoked, whether the streaming branch ran, and
how many lines were written before stopping. -/
structure ProxyOutcome where
  addCalls : Nat
  removes : Nat
  finalConnections : Option Int
  status : Nat
  healthSetFalse : Bool
  recordedResponseTime : Bool
  streamed : Bool
  linesWritten : Nat
deriving DecidableEq, Repr

/-- The `connectionRemoved` latch state threaded through `ServeHTTP`:
connection count, the latch flag, and how many times the guarded
`backend.RemoveConnections()` actually executed. -/
structure ConnTrack where
  connections : Int
  connectionRemoved : Bool
  removes : Nat
deriving DecidableEq, Repr

/-- Mirrors the `removeConnection` closure of `ServeHTTP` (proxy.go, lines
48-54): decrement once, latch afterwards. -/
def removeConnection (s : ConnTrack) : ConnTrack :=
  if s.connectionRemoved then s
  else
    { connections := Backend.RemoveConnections s.connections,
      connectionRemoved := true,
      removes := s.removes + 1 }

/-- The streaming copy loop (proxy.go, lines 108-118): number of lines
written to the client and whether a write error (client disconnect) cut
the loop short. -/
def streamCopy : List String → Option Nat → Nat × Bool
  | [], _ => (0, false)
  | _ :: rest, errAt =>
    match errAt with
    | some 0 => (0, true)
    | some (k + 1) =>
      let r := streamCopy rest (some k)
      (r.1 + 1, r.2)
    | none =>
      let r := streamCopy rest none
      (r.1 + 1, r.2)

/-- Mirrors `ProxyServer.ServeHTTP` (proxy.go, lines 31-130) as a pure
function from the request environment to its observable effects.  Every
`return` runs the deferred `removeConnection`; the 502 branch and the
client-disconnect branches also invoke it explicitly first, exactly as in
the source.  The handler contains no call to `RecordResponseTime`, so
`recordedResponseTime` is constantly `false` on every path. -/
def serveHTTP (env : ProxyEnv) : ProxyOutcome :=
  match env.selected with
  | none =>
    { addCalls := 0, removes := 0, finalConnections := none, status := 503,
      healthSetFalse := false, recordedResponseTime := false, streamed := false,
      linesWritten := 0 }
  | some backend =>
    if env.parseOk = false then
      { addCalls := 0, removes := 0, finalConnections := some backend.connections,
        status := 500, healthSetFalse := false, recordedResponseTime := false,
        streamed := false, linesWritten := 0 }
    else
      let s0 : ConnTrack :=
        { connections := Backend.AddConnections backend.connections,
          connectionRemoved := false, removes := 0 }
      if env.newRequestOk = false then
        let s1 := removeConnection s0
        { addCalls := 1, removes := s1.removes, finalConnections := some s1.connections,
          status := 500, healthSetFalse := false, recordedResponseTime := false,
          streamed := false, linesWritten := 0 }
      else
        match env.originResponse with
        | none =>
          let s1 := removeConnection s0
          let s2 := removeConnection s1
          { addCalls := 1, removes := s2.removes, finalConnections := some s2.connections,
            status := 502, healthSetFalse := true, recordedResponseTime := false,
            streamed := false, linesWritten := 0 }
        | some resp =>
          if env.supportsFlushing = true ∧ resp.contentType = "text/plain" then
            let copied := streamCopy resp.bodyLines resp.writeErrAt
            if copied.2 = true then
              let s1 := removeConnection s0
              let s2 := removeConnection s1
              { addCalls := 1, removes := s2.removes,
                finalConnections := some s2.connections, status := resp.status,
                healthSetFalse := false, recordedResponseTime := false,
                streamed := true, linesWritten := copied.1 }
            else if resp.scannerErr = true then
              let s1 := removeConnection s0
              let s2 := removeConnection s1
              { addCalls := 1, removes := s2.removes,
                finalConnections := some s2.connections, status := resp.status,
                healthSetFalse := false, recordedResponseTime := false,
                streamed := true, linesWritten := copied.1 }
            else
              let s1 := removeConnection s0
              { addCalls := 1, removes := s1.removes,
                finalConnections := some s1.connections, status := resp.status,
                healthSetFalse := false, recordedResponseTime := false,
                streamed := true, linesWritten := copied.1 }
          else
            if resp.copyErr = true then
              let s1 := removeConnection s0
              let s2 := removeConnection s1
              { addCalls := 1, removes := s2.removes,
                finalConnections := some s2.connections, status := resp.status,
                healthSetFalse := false, recordedResponseTime := false,
                streamed := false, linesWritten := 0 }
            else
              let s1 := removeConnection s0
              { addCalls := 1, removes := s1.removes,
                finalConnections := some s1.connections, status := resp.status,
                healthSetFalse := false, recordedResponseTime := false,
                streamed := false, linesWritten := 0 }

/-- After reservation, every exit path of the handler performs exactly one
actual decrement, and the final count is the saturating decrement of the
incremented count. -/
theorem serveHTTP_after_reserve (b : Backend) (nr fl : Bool) (orr : Option OriginResponse) :
    (serveHTTP ⟨some b, true, nr, fl, orr⟩).addCalls = 1 ∧
    (serveHTTP ⟨some b, true, nr, fl, orr⟩).removes = 1 ∧
    (serveHTTP ⟨some b, true, nr, fl, orr⟩).finalConnections =
      some (Backend.RemoveConnections (b.connections + 1)) := by
  simp only [serveHTTP]
  cases nr with
  | false => simp [removeConnection, Backend.AddConnections]
  | true =>
    cases orr with
    | none => simp [removeConnection, Backend.AddConnections]
    | some resp =>
      simp only [Bool.true_eq_false, if_false, reduceCtorEq]
      split_ifs <;> simp [removeConnection, Backend.AddConnections]

-- Concrete fixtures used by counterexamples and witnesses.

/-- A healthy backend fixture. -/
def bkA : Backend := { url := "http://a", healthy := true, connections := 0, weight := 1 }

/-- A second healthy backend fixture. -/
def bkB : Backend := { url := "http://b", healthy := true, connections := 0, weight := 1 }

/-- A healthy backend whose connection count equals Go's `math.MaxInt`,
the sentinel the least-connections scan starts from. -/
def bkMax : Backend := { url := "http://max", healthy := true, connections := goMaxInt, weight := 1 }

/-- CLAIM C10 counterexample: with the pre-increment counter at `2^63 - 1`
and three backends, the incremented counter reinterpreted as a signed
64-bit integer is negative, and Go's truncated `%` yields the index `-2`,
outside `[0, 3)` — the slice access `r.backends[idx]` panics. -/
theorem claim_C10_counterexample :
    rrIndex (2 ^ 63 - 1) 3 = -2 ∧ ¬(0 ≤ rrIndex (2 ^ 63 - 1) 3) ∧
      (rrNextBackend [bkA, bkA, bkA] (2 ^ 63 - 1)).1 = RRResult.fault := by
  refine ⟨by decide, by decide, by decide⟩

/-- CLAIM C10 (amended): whenever the incremented counter still fits in
the non-negative signed 64-bit range — in particular for the first
`2^63 - 1` selections — the computed index lies in `[0, n)` and the list
access cannot fault. -/
theorem claim_C10_index_in_bounds (counter n : Nat) (hn : 0 < n)
    (hsigned : (counter + 1) % 2 ^ 64 < 2 ^ 63) :
    0 ≤ rrIndex counter n ∧ rrIndex counter n < (n : Int) := by
  rw [rrIndex, toInt64_of_lt hsigned, tmod_coe_coe]
  have := Nat.mod_lt ((counter + 1) % 2 ^ 64) hn
  omega

/-- Witness for C10: a concrete in-range counter. -/
theorem claim_C10_index_in_bounds_witness :
    (0 < 4 ∧ (10 + 1) % 2 ^ 64 < 2 ^ 63) ∧
      (0 ≤ rrIndex 10 4 ∧ rrIndex 10 4 < (4 : Int)) :=
  ⟨⟨by decide, by decide⟩, claim_C10_index_in_bounds 10 4 (by decide) (by decide)⟩

/-- CLAIM C3 counterexample: the perfect cyclic permutation does not hold
for ever.  After `2^63` calls on a fresh two-backend selector the counter
is `2^63`; the next call converts the incremented counter `2^63 + 1` to a
negative signed integer, computes index `-1`, and faults instead of
returning `backends[1]`. -/
theorem claim_C3_counterexample :
    (rrNextBackend [bkA, bkB] (2 ^ 63)).1 = RRResult.fault ∧
      rrIndex (2 ^ 63) 2 = -1 := by
  refine ⟨by decide, by decide⟩

/-- CLAIM C3 (amended): on a fresh round-robin selector over two healthy
backends the k-th sequential call (counter value `k`, `k + 1 < 2^63`)
returns `backends[(k+1) mod 2]` and advances the counter to `k + 1`; in
particular the first four calls return `[B, A, B, A]`. -/
theorem claim_C3_roundrobin_alternation (A B : Backend)
    (hA : A.healthy = true) (hB : B.healthy = true) (k : Nat) (hk : k + 1 < 2 ^ 63) :
    rrNextBackend [A, B] k =
        (.ok ([A, B].get ⟨(k + 1) % 2, Nat.mod_lt _ (by norm_num)⟩), k + 1) ∧
      (rrRun [A, B] 0 4).1 = [.ok B, .ok A, .ok B, .ok A] := by
  have hall : ∀ b ∈ [A, B], b.healthy = true := by
    intro b hb
    rcases List.mem_cons.mp hb with rfl | hb'
    · exact hA
    · rcases List.mem_cons.mp hb' with rfl | hb''
      · exact hB
      · simp at hb''
  have hn : 0 < ([A, B] : List Backend).length := by simp
  have hstep : ∀ c : Nat, c + 1 < 2 ^ 63 →
      rrNextBackend [A, B] c =
        (.ok ([A, B].get ⟨(c + 1) % 2, Nat.mod_lt _ (by norm_num)⟩), c + 1) := by
    intro c hc
    exact rrNextBackend_all_healthy [A, B] c hn hc hall
  refine ⟨hstep k hk, ?_⟩
  have h0 := hstep 0 (by norm_num)
  have h1 := hstep 1 (by norm_num)
  have h2 := hstep 2 (by norm_num)
  have h3 := hstep 3 (by norm_num)
  simp only [rrRun, h0, h1, h2, h3]
  simp [List.get]

/-- Witness for C3: concrete healthy backends and a concrete call index. -/
theorem claim_C3_roundrobin_alternation_witness :
    (bkA.healthy = true ∧ bkB.healthy = true ∧ 2 + 1 < 2 ^ 63) ∧
      (rrNextBackend [bkA, bkB] 2 =
          (.ok ([bkA, bkB].get ⟨(2 + 1) % 2, Nat.mod_lt _ (by norm_num)⟩), 2 + 1) ∧
        (rrRun [bkA, bkB] 0 4).1 = [.ok bkB, .ok bkA, .ok bkB, .ok bkA]) :=
  ⟨⟨by decide, by decide, by decide⟩,
    claim_C3_roundrobin_alternation bkA bkB (by decide) (by decide) 2 (by decide)⟩

/-- CLAIM C2 counterexample: with five healthy backends and the shared
counter at `2^63 - 1` the round-robin call faults on a negative index
instead of returning a healthy backend, so the contract's third branch
fails in the signed-overflow region. -/
theorem claim_C2_counterexample :
    (rrNextBackend [bkA, bkA, bkA, bkA, bkA] (2 ^ 63 - 1)).1 = RRResult.fault := by
  decide

/-- CLAIM C2 (amended): the selector contract — empty list gives the
no-backends error, a non-empty all-unhealthy list gives the none-healthy
error, and otherwise a backend observed healthy during the call is
returned — holds for the weighted selector unconditionally and for the
round-robin selector whenever the shared counter stays below `2^63 - n`
(signed-non-negative region). -/
theorem claim_C2_selector_contract (backends : List Backend) (counter : Nat)
    (trk : Nat → responseTimeTracker) (now : Int) (random01 : ℝ)
    (hc : counter + backends.length < 2 ^ 63) :
    (backends.length = 0 →
      (rrNextBackend backends counter).1 = .errNoBackends ∧
        wrtNextBackend backends trk now random01 = .errNoBackends) ∧
    (0 < backends.length → (∀ b ∈ backends, b.healthy = false) →
      (rrNextBackend backends counter).1 = .errNoneHealthy ∧
        wrtNextBackend backends trk now random01 = .errNoneHealthy) ∧
    ((∃ b ∈ backends, b.healthy = true) →
      (∃ b, (rrNextBackend backends counter).1 = .ok b ∧ b ∈ backends ∧
          b.healthy = true) ∧
        ∃ b, wrtNextBackend backends trk now random01 = .ok b ∧ b ∈ backends ∧
          b.healthy = true) := by
  obtain ⟨hrr0, hrr1, hrr2⟩ := rrNextBackend_classify backends counter hc
  obtain ⟨hw0, hw1, hw2⟩ := wrtNextBackend_classify backends trk now random01
  exact ⟨fun h => ⟨hrr0 h, hw0 h⟩,
    fun hn hall => ⟨hrr1 hn hall, hw1 hn hall⟩,
    fun hex => ⟨hrr2 hex, hw2 hex⟩⟩

/-- Witness for C2: a single healthy backend, fresh counter, fresh
tracker, zero draw. -/
theorem claim_C2_selector_contract_witness :
    (0 + List.length [bkA] < 2 ^ 63) ∧
      ((List.length [bkA] = 0 →
        (rrNextBackend [bkA] 0).1 = .errNoBackends ∧
          wrtNextBackend [bkA] (fun _ => newTracker 0) 0 0 = .errNoBackends) ∧
      (0 < List.length [bkA] → (∀ b ∈ [bkA], b.healthy = false) →
        (rrNextBackend [bkA] 0).1 = .errNoneHealthy ∧
          wrtNextBackend [bkA] (fun _ => newTracker 0) 0 0 = .errNoneHealthy) ∧
      ((∃ b ∈ [bkA], b.healthy = true) →
        (∃ b, (rrNextBackend [bkA] 0).1 = .ok b ∧ b ∈ [bkA] ∧ b.healthy = true) ∧
          ∃ b, wrtNextBackend [bkA] (fun _ => newTracker 0) 0 0 = .ok b ∧
            b ∈ [bkA] ∧ b.healthy = true)) :=
  ⟨by decide, claim_C2_selector_contract [bkA] 0 (fun _ => newTracker 0) 0 0 (by decide)⟩

/-- CLAIM C4 counterexample: a single healthy backend whose connection
count equals the `math.MaxInt` sentinel is never selected — the strict
`<` against the initial sentinel fails, and the scan reports the
none-healthy error even though a healthy backend exists. -/
theorem claim_C4_counterexample :
    lcNextBackend [bkMax] = LCResult.errNoneHealthy := by
  decide

/-- CLAIM C4 (amended): whenever some backend is healthy and every healthy
backend's connection count is strictly below the `math.MaxInt` sentinel,
the least-connections selector returns the healthy backend with the
minimal connection count, breaking ties in favour of the earliest list
position, and never one exceeding the healthy minimum. -/
theorem claim_C4_leastconn_minimum (backends : List Backend)
    (hhealthy : ∃ b ∈ backends, b.healthy = true)
    (hbound : ∀ b ∈ backends, b.healthy = true → b.connections < goMaxInt) :
    ∃ i, ∃ hi : i < backends.length,
      lcNextBackend backends = .ok (backends.get ⟨i, hi⟩) ∧
      (backends.get ⟨i, hi⟩).healthy = true ∧
      (∀ b ∈ backends, b.healthy = true →
        (backends.get ⟨i, hi⟩).connections ≤ b.connections) ∧
      (∀ b ∈ backends.take i, b.healthy = true →
        (backends.get ⟨i, hi⟩).connections < b.connections) := by
  obtain ⟨b0, hb0, hh0⟩ := hhealthy
  have hn : 0 < backends.length := List.length_pos_of_mem hb0
  cases hscan : minHealthyLt goMaxInt backends with
  | none =>
    have := minHealthyLt_none hscan b0 hb0 hh0
    exact absurd (hbound b0 hb0 hh0) this
  | some m =>
    obtain ⟨⟨i, hi, hget, htie⟩, hmh, hmlt, hmin⟩ := minHealthyLt_some hscan
    refine ⟨i, hi, ?_, ?_, ?_, ?_⟩
    · rw [lcNextBackend, if_neg (by omega), leastConnScan_eq_spec, hscan, hget]
    · rw [hget]; exact hmh
    · intro b hb hbh
      rw [hget]
      exact hmin b hb hbh (hbound b hb hbh)
    · intro b hb hbh
      rw [hget]
      exact htie b hb hbh (hbound b (List.take_subset i backends hb) hbh)

/-- A small mixed fixture list for the least-connections witness. -/
def lcFixture : List Backend :=
  [{ url := "http://a", healthy := true, connections := 5, weight := 1 },
   { url := "http://c", healthy := false, connections := 0, weight := 1 },
   { url := "http://b", healthy := true, connections := 2, weight := 1 },
   { url := "http://d", healthy := true, connections := 2, weight := 1 }]

/-- Witness for C4: on the fixture the selector picks the earliest healthy
minimum. -/
theorem claim_C4_leastconn_minimum_witness :
    ((∃ b ∈ lcFixture, b.healthy = true) ∧
      (∀ b ∈ lcFixture, b.healthy = true → b.connections < goMaxInt)) ∧
      (∃ i, ∃ hi : i < lcFixture.length,
        lcNextBackend lcFixture = .ok (lcFixture.get ⟨i, hi⟩) ∧
        (lcFixture.get ⟨i, hi⟩).healthy = true ∧
        (∀ b ∈ lcFixture, b.healthy = true →
          (lcFixture.get ⟨i, hi⟩).connections ≤ b.connections) ∧
        (∀ b ∈ lcFixture.take i, b.healthy = true →
          (lcFixture.get ⟨i, hi⟩).connections < b.connections)) :=
  ⟨⟨by decide, by decide⟩,
    claim_C4_leastconn_minimum lcFixture (by decide) (by decide)⟩

/-- CLAIM C5: the implemented weight function agrees with the
specification formula — `10.0` for a cold backend, otherwise
`max(decay x 1000 / (avg_ms + 1), 0.1)` with the 24-hour half-life decay —
and is therefore bounded below by `0.1` everywhere. -/
theorem claim_C5_weight_formula (trk : responseTimeTracker) (now : Int) :
    calculateWeight trk now = specWeight trk now ∧
    (trk.requestCount = 0 → calculateWeight trk now = 10) ∧
    (0.1 : ℝ) ≤ calculateWeight trk now := by
  refine ⟨?_, ?_, ?_⟩
  · rw [calculateWeight, specWeight]
    by_cases hc : trk.requestCount = 0
    · rw [if_pos hc, if_pos hc]
    · rw [if_neg hc, if_neg hc]
      simp only
      congr 1
      rw [calculateDecayFactor, mul_div_assoc, neg_div]
      unfold goHalfLife
      rfl
  · intro h
    rw [calculateWeight, if_pos h]
  · rw [calculateWeight]
    by_cases hc : trk.requestCount = 0
    · rw [if_pos hc]; norm_num
    · rw [if_neg hc]
      exact le_max_right _ _

/-- Witness for C5 at a concrete cold tracker. -/
theorem claim_C5_weight_formula_witness :
    ((newTracker 0).requestCount = 0) ∧
      (calculateWeight (newTracker 0) 0 = specWeight (newTracker 0) 0 ∧
        ((newTracker 0).requestCount = 0 → calculateWeight (newTracker 0) 0 = 10) ∧
        (0.1 : ℝ) ≤ calculateWeight (newTracker 0) 0) :=
  ⟨rfl, claim_C5_weight_formula (newTracker 0) 0⟩

/-- CLAIM C8 counterexample: recording a single zero-duration sample — a
non-negative duration — on a fresh tracker yields `request_count = 1` with
`total_duration = 0`, refuting the claimed equivalence
`request_count == 0 ⇔ total_duration == 0`. -/
theorem claim_C8_counterexample :
    (trackerRun (newTracker 0) [TrackerEvent.record 0 5]).requestCount = 1 ∧
      (trackerRun (newTracker 0) [TrackerEvent.record 0 5]).totalTime = 0 := by
  refine ⟨by decide, by decide⟩

/-- CLAIM C8 (amended): over every reachable tracker state — any event
sequence from a fresh tracker — the equivalence
`request_count == 0 ⇔ total_duration == 0` holds provided every recorded
duration is strictly positive, and `last_update` is non-decreasing along
any run whose event timestamps are themselves non-decreasing. -/
theorem claim_C8_tracker_invariants (now0 : Int) (es es1 es2 : List TrackerEvent)
    (hpos : ∀ e ∈ es, eventPosB e = true)
    (hchain : List.Chain (· ≤ ·) now0 ((es1 ++ es2).map eventTime)) :
    ((trackerRun (newTracker now0) es).requestCount = 0 ↔
      (trackerRun (newTracker now0) es).totalTime = 0) ∧
    (trackerRun (newTracker now0) es1).lastUpdate ≤
      (trackerRun (newTracker now0) (es1 ++ es2)).lastUpdate := by
  constructor
  · exact (trackerRun_inv es (newTracker now0) hpos (by simp [newTracker])).1
  · exact trackerRun_lastUpdate_mono es1 es2 (newTracker now0) hchain

/-- Witness for C8: positive-duration records and resets at non-decreasing
times. -/
theorem claim_C8_tracker_invariants_witness :
    ((∀ e ∈ [TrackerEvent.record 7 1, TrackerEvent.reset 2, TrackerEvent.record 3 4],
        eventPosB e = true) ∧
      List.Chain (· ≤ ·) 0
        (([TrackerEvent.record 7 1] ++ [TrackerEvent.reset 2, TrackerEvent.record 3 4]).map
          eventTime)) ∧
    (((trackerRun (newTracker 0)
          [TrackerEvent.record 7 1, TrackerEvent.reset 2, TrackerEvent.record 3 4]).requestCount
            = 0 ↔
        (trackerRun (newTracker 0)
          [TrackerEvent.record 7 1, TrackerEvent.reset 2, TrackerEvent.record 3 4]).totalTime
            = 0) ∧
      (trackerRun (newTracker 0) [TrackerEvent.record 7 1]).lastUpdate ≤
        (trackerRun (newTracker 0)
          ([TrackerEvent.record 7 1] ++ [TrackerEvent.reset 2, TrackerEvent.record 3 4])).lastUpdate) :=
  ⟨⟨by decide, by simp [List.chain_cons, eventTime]⟩,
    claim_C8_tracker_invariants 0
      [TrackerEvent.record 7 1, TrackerEvent.reset 2, TrackerEvent.record 3 4]
      [TrackerEvent.record 7 1] [TrackerEvent.reset 2, TrackerEvent.record 3 4]
      (by decide) (by simp [List.chain_cons, eventTime])⟩

/-- A write error at position `k` inside the body stops the streaming loop
after exactly `k` successfully written lines. -/
theorem streamCopy_some_lt :
    ∀ (lines : List String) (k : Nat), k < lines.length →
      streamCopy lines (some k) = (k, true) := by
  intro lines
  induction lines with
  | nil => intro k hk; simp at hk
  | cons x rest ih =>
    intro k hk
    cases k with
    | zero => rfl
    | succ k' =>
      rw [streamCopy]
      simp only [List.length_cons] at hk
      rw [ih k' (by omega)]

/-- CLAIM C1: pre-reservation terminations (selector error, URL-parse
failure) never touch the connection count, and every request that passes
reservation performs exactly one increment and exactly one decrement on
the selected backend, returning its count to the initial value on every
exit path. -/
theorem claim_C1_inflight_net_zero (b : Backend) (pf nr fl : Bool)
    (orr : Option OriginResponse) (h0 : 0 ≤ b.connections) :
    ((serveHTTP ⟨none, pf, nr, fl, orr⟩).addCalls = 0 ∧
      (serveHTTP ⟨none, pf, nr, fl, orr⟩).removes = 0) ∧
    ((serveHTTP ⟨some b, false, nr, fl, orr⟩).addCalls = 0 ∧
      (serveHTTP ⟨some b, false, nr, fl, orr⟩).removes = 0 ∧
      (serveHTTP ⟨some b, false, nr, fl, orr⟩).finalConnections = some b.connections) ∧
    ((serveHTTP ⟨some b, true, nr, fl, orr⟩).addCalls = 1 ∧
      (serveHTTP ⟨some b, true, nr, fl, orr⟩).removes = 1 ∧
      (serveHTTP ⟨some b, true, nr, fl, orr⟩).finalConnections = some b.connections) := by
  have hrc : Backend.RemoveConnections (b.connections + 1) = b.connections := by
    rw [Backend.RemoveConnections, if_pos (by omega)]
    ring
  obtain ⟨ha, hr, hf⟩ := serveHTTP_after_reserve b nr fl orr
  refine ⟨⟨by simp [serveHTTP], by simp [serveHTTP]⟩,
    ⟨by simp [serveHTTP], by simp [serveHTTP], by simp [serveHTTP]⟩,
    ha, hr, ?_⟩
  rw [hf, hrc]

/-- A successful origin response fixture with a `text/plain` body. -/
def respPlainOK : OriginResponse :=
  { status := 200, contentType := "text/plain", bodyLines := ["line 1"],
    writeErrAt := none, scannerErr := false, copyErr := false }

/-- Witness for C1: a concrete successfully proxied request. -/
theorem claim_C1_inflight_net_zero_witness :
    (0 ≤ bkA.connections) ∧
      (((serveHTTP ⟨none, true, true, true, some respPlainOK⟩).addCalls = 0 ∧
        (serveHTTP ⟨none, true, true, true, some respPlainOK⟩).removes = 0) ∧
      ((serveHTTP ⟨some bkA, false, true, true, some respPlainOK⟩).addCalls = 0 ∧
        (serveHTTP ⟨some bkA, false, true, true, some respPlainOK⟩).removes = 0 ∧
        (serveHTTP ⟨some bkA, false, true, true, some respPlainOK⟩).finalConnections =
          some bkA.connections) ∧
      ((serveHTTP ⟨some bkA, true, true, true, some respPlainOK⟩).addCalls = 1 ∧
        (serveHTTP ⟨some bkA, true, true, true, some respPlainOK⟩).removes = 1 ∧
        (serveHTTP ⟨some bkA, true, true, true, some respPlainOK⟩).finalConnections =
          some bkA.connections)) :=
  ⟨by decide, claim_C1_inflight_net_zero bkA true true true (some respPlainOK) (by decide)⟩

/-- CLAIM C6: the forwarding handler never invokes `RecordResponseTime`
on any path — in particular not after a successfully proxied exchange —
even though it does perform the release decrement.  The handler
(`proxy.go`) contains no call to the weighted balancer's recording
operation and measures no elapsed time. -/
theorem claim_C6_release_never_records :
    (∀ env : ProxyEnv, (serveHTTP env).recordedResponseTime = false) ∧
    (serveHTTP ⟨some bkB, true, true, true, some respPlainOK⟩).status = 200 ∧
    (serveHTTP ⟨some bkB, true, true, true, some respPlainOK⟩).removes = 1 ∧
    (serveHTTP ⟨some bkB, true, true, true, some respPlainOK⟩).recordedResponseTime = false := by
  refine ⟨?_, by decide, by decide, by decide⟩
  rintro ⟨sel, p, nr, fl, orr⟩
  cases sel <;> cases p <;> cases nr <;> cases orr <;>
    (try simp [serveHTTP]) <;> (try split_ifs) <;> (try rfl)

/-- An origin response whose `Content-Type` begins with `text/plain` but
carries a charset parameter. -/
def respCharset : OriginResponse :=
  { status := 200, contentType := "text/plain; charset=utf-8", bodyLines := ["x"],
    writeErrAt := none, scannerErr := false, copyErr := false }

/-- CLAIM C7 counterexample: a `Content-Type` that begins with
`text/plain` but is not exactly equal to it (a charset parameter) takes
the standard copy path, not the streaming path, even with a flushing
client — the code compares with `==`, not with a prefix test. -/
theorem claim_C7_counterexample :
    respCharset.contentType = "text/plain" ++ "; charset=utf-8" ∧
    (serveHTTP ⟨some bkA, true, true, true, some respCharset⟩).streamed = false := by
  refine ⟨by decide, by decide⟩

/-- CLAIM C7 (amended): the handler takes the line-by-line streaming path
exactly when the origin `Content-Type` is literally `text/plain` and the
client supports flushing; on a write error to the client it stops after
the successfully written lines and still releases the connection exactly
once. -/
theorem claim_C7_streaming_condition (b : Backend) (fl : Bool) (resp : OriginResponse) :
    ((serveHTTP ⟨some b, true, true, fl, some resp⟩).streamed = true ↔
      (fl = true ∧ resp.contentType = "text/plain")) ∧
    (∀ k, resp.writeErrAt = some k → k < resp.bodyLines.length → fl = true →
      resp.contentType = "text/plain" →
      (serveHTTP ⟨some b, true, true, fl, some resp⟩).linesWritten = k ∧
      (serveHTTP ⟨some b, true, true, fl, some resp⟩).removes = 1) := by
  constructor
  · by_cases hcond : fl = true ∧ resp.contentType = "text/plain"
    · simp only [serveHTTP]
      rw [if_neg (by simp), if_neg (by simp), if_pos hcond]
      split_ifs <;> simp [hcond]
    · simp only [serveHTTP]
      rw [if_neg (by simp), if_neg (by simp), if_neg hcond]
      split_ifs <;> simp [hcond]
  · intro k herr hk hfl hct
    have hcond : fl = true ∧ resp.contentType = "text/plain" := ⟨hfl, hct⟩
    have hcopy : streamCopy resp.bodyLines resp.writeErrAt = (k, true) := by
      rw [herr]
      exact streamCopy_some_lt resp.bodyLines k hk
    simp only [serveHTTP]
    rw [if_neg (by simp), if_neg (by simp), if_pos hcond, hcopy]
    simp [removeConnection, Backend.AddConnections]

/-- An origin response that hits a client write error on its second line. -/
def respStreamErr : OriginResponse :=
  { status := 200, contentType := "text/plain", bodyLines := ["l0", "l1", "l2"],
    writeErrAt := some 1, scannerErr := false, copyErr := false }

/-- Witness for C7: a concrete streaming response with a client disconnect
at the second line. -/
theorem claim_C7_streaming_condition_witness :
    (respStreamErr.writeErrAt = some 1 ∧ 1 < respStreamErr.bodyLines.length ∧
      respStreamErr.contentType = "text/plain") ∧
      (((serveHTTP ⟨some bkB, true, true, true, some respStreamErr⟩).streamed = true ↔
        (true = true ∧ respStreamErr.contentType = "text/plain")) ∧
      ((serveHTTP ⟨some bkB, true, true, true, some respStreamErr⟩).linesWritten = 1 ∧
        (serveHTTP ⟨some bkB, true, true, true, some respStreamErr⟩).removes = 1)) :=
  ⟨⟨by decide, by decide, by decide⟩,
    ⟨(claim_C7_streaming_condition bkB true respStreamErr).1,
      (claim_C7_streaming_condition bkB true respStreamErr).2 1 (by decide) (by decide)
        (by decide) (by decide)⟩⟩

/-- Replace the configured weight field of a backend (arbitrarily,
per-backend) while leaving URL, health and connection count intact. -/
def reweight (f : Backend → Int) (b : Backend) : Backend :=
  { b with weight := f b }

/-- Forget the weight field (normalise it to 0) for comparing selection
results up to the configured weight. -/
def stripWeight (b : Backend) : Backend :=
  { b with weight := 0 }

/-- Apply a backend transformation to a round-robin result's payload. -/
def RRResult.mapB (g : Backend → Backend) : RRResult → RRResult
  | .ok b => .ok (g b)
  | .errNoBackends => .errNoBackends
  | .errNoneHealthy => .errNoneHealthy
  | .fault => .fault

/-- Round-robin results up to the configured weight. -/
def RRResult.strip : RRResult → RRResult := RRResult.mapB stripWeight

/-- Least-connections results up to the configured weight. -/
def LCResult.strip : LCResult → LCResult
  | .ok b => .ok (stripWeight b)
  | .errNoBackends => .errNoBackends
  | .errNoneHealthy => .errNoneHealthy

/-- Weighted-selection results up to the configured weight. -/
def WRTResult.strip : WRTResult → WRTResult
  | .ok b => .ok (stripWeight b)
  | .errNoBackends => .errNoBackends
  | .errNoneHealthy => .errNoneHealthy

theorem stripWeight_reweight (f : Backend → Int) (b : Backend) :
    stripWeight (reweight f b) = stripWeight b := rfl

theorem strip_mapB_reweight (f : Backend → Int) (r : RRResult) :
    (r.mapB (reweight f)).strip = r.strip := by
  cases r <;> rfl

/-- The round-robin probe commutes with a weight-only rewrite of the
backend list: it inspects only length and health. -/
theorem rrProbe_reweight (f : Backend → Int) (l : List Backend) :
    ∀ fuel counter,
      rrProbe (l.map (reweight f)) fuel counter =
        (((rrProbe l fuel counter).1).mapB (reweight f), (rrProbe l fuel counter).2) := by
  intro fuel
  induction fuel with
  | zero => intro counter; rfl
  | succ fuel ih =>
    intro counter
    simp only [rrProbe, List.length_map]
    by_cases h : 0 ≤ rrIndex counter l.length ∧ rrIndex counter l.length < (l.length : Int)
    · rw [dif_pos h, dif_pos h]
      have hget : ∀ (pf : (rrIndex counter l.length).toNat < (l.map (reweight f)).length),
          (l.map (reweight f)).get ⟨(rrIndex counter l.length).toNat, pf⟩ =
            reweight f (l.get ⟨(rrIndex counter l.length).toNat, by simpa using pf⟩) := by
        intro pf
        simp
      rw [hget]
      have hre : ∀ b : Backend, (reweight f b).IsHealthy = b.IsHealthy := fun _ => rfl
      simp only [hre]
      split_ifs with h1 <;>
        first
          | rfl
          | (exact ih _)
    · rw [dif_neg h, dif_neg h]
      rfl

/-- The least-connections spec scan commutes with a weight-only rewrite:
it inspects only health and connection counts. -/
theorem minHealthyLt_reweight (f : Backend → Int) :
    ∀ (l : List Backend) (bound : Int),
      minHealthyLt bound (l.map (reweight f)) =
        (minHealthyLt bound l).map (reweight f) := by
  intro l
  induction l with
  | nil => intro bound; rfl
  | cons b rest ih =>
    intro bound
    rw [List.map_cons, minHealthyLt, minHealthyLt]
    have hcond : ((reweight f b).healthy = true ∧ (reweight f b).connections < bound) ↔
        (b.healthy = true ∧ b.connections < bound) := Iff.rfl
    by_cases hb : b.healthy = true ∧ b.connections < bound
    · rw [if_pos (hcond.mpr hb), if_pos hb]
      have hc : (reweight f b).connections = b.connections := rfl
      rw [hc, ih]
      cases minHealthyLt b.connections rest <;> rfl
    · rw [if_neg (fun h => hb (hcond.mp h)), if_neg hb, ih]

/-- The healthy-collection loop commutes with a weight-only rewrite; the
computed weights depend only on the tracker state. -/
theorem collectHealthy_reweight (f : Backend → Int) (trk : Nat → responseTimeTracker)
    (now : Int) :
    ∀ (l : List Backend) (i : Nat),
      collectHealthy trk now (l.map (reweight f)) i =
        (collectHealthy trk now l i).map (fun p => (reweight f p.1, p.2)) := by
  intro l
  induction l with
  | nil => intro i; rfl
  | cons b rest ih =>
    intro i
    rw [List.map_cons, collectHealthy, collectHealthy]
    cases hb : b.IsHealthy with
    | true =>
      have hb' : (reweight f b).IsHealthy = true := hb
      rw [hb']
      simp only [if_true]
      rw [ih]
      rfl
    | false =>
      have hb' : (reweight f b).IsHealthy = false := hb
      rw [hb']
      simp only [Bool.false_eq_true, if_false]
      exact ih (i + 1)

/-- The cumulative scan commutes with a backend-only rewrite of the pairs
(the weights are untouched). -/
theorem selectLoop_map (g : Backend → Backend) (random : ℝ) :
    ∀ (pairs : List (Backend × ℝ)) (c : ℝ),
      selectLoop random (pairs.map (fun p => (g p.1, p.2))) c =
        (selectLoop random pairs c).map g := by
  intro pairs
  induction pairs with
  | nil => intro c; rfl
  | cons p rest ih =>
    intro c
    obtain ⟨bp, w⟩ := p
    rw [List.map_cons, selectLoop, selectLoop]
    by_cases hr : random ≤ c + w
    · rw [if_pos hr, if_pos hr]
      rfl
    · rw [if_neg hr, if_neg hr]
      exact ih (c + w)

/-- The weighted random selection commutes with a backend-only rewrite of
its pairs. -/
theorem selectByWeight_map (g : Backend → Backend) (first : Backend × ℝ)
    (rest : List (Backend × ℝ)) (random01 : ℝ) :
    selectByWeight (g first.1, first.2) (rest.map (fun p => (g p.1, p.2))) random01 =
      g (selectByWeight first rest random01) := by
  rw [selectByWeight, selectByWeight]
  have hcomp : (Prod.snd ∘ fun p : Backend × ℝ => (g p.1, p.2)) = Prod.snd := rfl
  simp only [List.map_cons, List.map_map, hcomp]
  by_cases h0 : (first.2 :: rest.map Prod.snd).sum = 0
  · rw [if_pos h0, if_pos h0]
  · rw [if_neg h0, if_neg h0]
    have hloop := selectLoop_map g (random01 * (first.2 :: rest.map Prod.snd).sum)
      (first :: rest) 0
    rw [List.map_cons] at hloop
    rw [hloop]
    cases hl : selectLoop (random01 * (first.2 :: rest.map Prod.snd).sum) (first :: rest) 0 with
    | some b => rfl
    | none =>
      have hlast := List.getLast_map (fun p : Backend × ℝ => (g p.1, p.2)) (first :: rest)
        (by simp)
      exact congrArg Prod.fst hlast

/-- CLAIM C9: for each of the three selectors, rewriting every backend's
configured weight field arbitrarily — leaving URL, health flag,
connection counts, tracker state, probe counter and random draw unchanged
— yields the identical selection outcome (same selected backend up to its
weight field, or the same error), so no selector reads the configured
weight. -/
theorem claim_C9_weight_field_independent (f : Backend → Int) (l : List Backend)
    (counter : Nat) (trk : Nat → responseTimeTracker) (now : Int) (random01 : ℝ) :
    ((rrNextBackend (l.map (reweight f)) counter).1).strip =
      ((rrNextBackend l counter).1).strip ∧
    (rrNextBackend (l.map (reweight f)) counter).2 = (rrNextBackend l counter).2 ∧
    (lcNextBackend (l.map (reweight f))).strip = (lcNextBackend l).strip ∧
    (wrtNextBackend (l.map (reweight f)) trk now random01).strip =
      (wrtNextBackend l trk now random01).strip := by
  have hlen : (l.map (reweight f)).length = l.length := List.length_map _ _
  refine ⟨?_, ?_, ?_, ?_⟩
  · rw [rrNextBackend, rrNextBackend, hlen]
    by_cases h0 : l.length = 0
    · rw [if_pos h0, if_pos h0]
    · rw [if_neg h0, if_neg h0, rrProbe_reweight f l]
      exact strip_mapB_reweight f _
  · rw [rrNextBackend, rrNextBackend, hlen]
    by_cases h0 : l.length = 0
    · rw [if_pos h0, if_pos h0]
    · rw [if_neg h0, if_neg h0, rrProbe_reweight f l]
  · rw [lcNextBackend, lcNextBackend, hlen]
    by_cases h0 : l.length = 0
    · rw [if_pos h0, if_pos h0]
    · rw [if_neg h0, if_neg h0, leastConnScan_eq_spec, leastConnScan_eq_spec,
        minHealthyLt_reweight]
      cases minHealthyLt goMaxInt l <;> rfl
  · rw [wrtNextBackend, wrtNextBackend, hlen]
    by_cases h0 : l.length = 0
    · rw [if_pos h0, if_pos h0]
    · rw [if_neg h0, if_neg h0, collectHealthy_reweight]
      cases hc : collectHealthy trk now l 0 with
      | nil => rfl
      | cons p rest =>
        simp only [List.map_cons]
        have := selectByWeight_map (reweight f) p rest random01
        rw [this]
        rfl
